import Mathlib

/-!
Shallow embedding of the `reflect` C++11 reflection library
(`src/reflect.h`, `include/reflect.h`): a runtime metadata registry
(`DrReflect`) mapping type hash identifiers to class schemas
(`ClassData`) and offset-ordered member schemas (`MemberData`),
plus type-checked member value accessors and annotation maps.

Modelling conventions:
* `HashID` (`size_t` hash of `typeid`) is `Nat`; `0` is the
  "unknown / no type" value, matching `MEMBER_TYPE_UNKNOWN = 0`.
* `std::unordered_map` is an association list with in-place
  replacement on key collision (`alInsert` / `alFind`).
* `std::map<int, MemberData>` (which iterates in ascending key
  order) is an association list kept sorted by key; `mapInsert`
  inserts preserving the ascending order, replacing on equal key.
* C `assert` failures are modelled as `Option.none` results.
* The distinct C++ value types usable with `GetValue` / `SetValue`
  form a small closed universe `MTy`; `CreateHashID` gives each a
  distinct nonzero hash.  A record instance's memory is a map from
  byte offset to a tagged stored value.
* Characters handled by `CreateTitle` are modelled as ASCII byte
  values (`Nat`), matching the C `char` arithmetic.
-/

/-! ### Association list helpers (unordered_map model) -/

def alFind {K V : Type} [DecidableEq K] (k : K) : List (K × V) → Option V
  | [] => none
  | (k', v) :: rest => if k' = k then some v else alFind k rest

def alInsert {K V : Type} [DecidableEq K] (k : K) (v : V) : List (K × V) → List (K × V)
  | [] => [(k, v)]
  | (k', v') :: rest => if k' = k then (k, v) :: rest else (k', v') :: alInsert k v rest

/-! ### Data model (`ClassData`, `MemberData`) -/

/-- `using HashID = size_t` — comes from `typeid(T).hash_code()`. -/
abbrev HashID := Nat

/-- `IntMap` meta-data map: `std::unordered_map<int, std::string>`. -/
abbrev IntMap := List (Int × String)

/-- `StringMap` meta-data map: `std::map<std::string, std::string>`. -/
abbrev StringMap := List (String × String)


/-- `struct ClassData` of `src/reflect.h` with its default member values. -/
structure ClassData where
  name : String := "unknown"
  title : String := "unknown"
  hash_code : HashID := 0
  member_count : Nat := 0
  meta_int_map : IntMap := []
  meta_string_map : StringMap := []
deriving DecidableEq

/-- `struct MemberData` of `src/reflect.h` with its default member values. -/
structure MemberData where
  name : String := "unknown"
  title : String := "unknown"
  index : Int := -1
  hash_code : HashID := 0
  offset : Int := 0
  size : Nat := 0
  meta_int_map : IntMap := []
  meta_string_map : StringMap := []
deriving DecidableEq

/-- `static ClassData unknown_class { }` — sentinel returned on lookup miss. -/
def unknown_class : ClassData := {}

/-- `static MemberData unknown_member { }` — sentinel returned on lookup miss. -/
def unknown_member : MemberData := {}

/-! ### Member map: `std::map<int, MemberData>`, ascending key order -/

abbrev MemberMap := List (Int × MemberData)

/-- Insertion into the ordered member map: `members[hash][offset] = data`
replaces the entry at an existing key and otherwise inserts at the
position given by ascending key order (`std::map` semantics). -/
def mapInsert (k : Int) (v : MemberData) : MemberMap → MemberMap
  | [] => [(k, v)]
  | (k', v') :: rest =>
    if k < k' then (k, v) :: (k', v') :: rest
    else if k = k' then (k, v) :: rest
    else (k', v') :: mapInsert k v rest

/-- Key lookup in the ordered member map. -/
def mapFind (k : Int) : MemberMap → Option MemberData
  | [] => none
  | (k', v) :: rest => if k' = k then some v else mapFind k rest

/-! ### The registry singleton `DrReflect` -/

/-- `class DrReflect`: `classes` holds data about classes / structs,
`members` holds data about member variables of classes. -/
structure DrReflect where
  classes : List (HashID × ClassData) := []
  members : List (HashID × MemberMap) := []
deriving DecidableEq

/-- `DrReflect::AddClass`: asserts the hash code is nonzero (assertion
failure modelled as `none`), then upserts `classes[hash] = class_data`. -/
def AddClass (r : DrReflect) (class_data : ClassData) : Option DrReflect :=
  if class_data.hash_code = 0 then none
  else some { r with classes := alInsert class_data.hash_code class_data r.classes }

/-- `DrReflect::AddMember`: asserts the hash code is nonzero and that the
class was registered with `AddClass` first (assertion failures modelled
as `none`); then `members[hash][offset] = member_data` and
`classes[hash].member_count = members[hash].size()`. -/
def AddMember (r : DrReflect) (class_data : ClassData) (member_data : MemberData) :
    Option DrReflect :=
  if class_data.hash_code = 0 then none
  else
    match alFind class_data.hash_code r.classes with
    | none => none
    | some c =>
      let mm := (alFind class_data.hash_code r.members).getD []
      let mm' := mapInsert member_data.offset member_data mm
      some { classes := alInsert class_data.hash_code
               { c with member_count := mm'.length } r.classes,
             members := alInsert class_data.hash_code mm' r.members }

/-- A registration call: `RegisterClass` / `RegisterMember` both forward
to the `DrReflect` singleton. -/
inductive RegOp where
  | addClass (class_data : ClassData)
  | addMember (class_data : ClassData) (member_data : MemberData)
deriving DecidableEq

def applyOp (r : DrReflect) : RegOp → Option DrReflect
  | .addClass cd => AddClass r cd
  | .addMember cd md => AddMember r cd md

/-- Running a sequence of registration calls; an assertion failure
aborts the run. -/
def runOps : List RegOp → DrReflect → Option DrReflect
  | [], r => some r
  | op :: rest, r =>
    match applyOp r op with
    | none => none
    | some r' => runOps rest r'

/-- The `std::map` well-formedness of the registry: every stored member
map is in strictly ascending byte-offset order. -/
def SortedMembers (r : DrReflect) : Prop :=
  ∀ h : HashID, ((alFind h r.members).getD []).Pairwise (fun a b => a.1 < b.1)

/-- The byte offsets passed to `AddMember` for a given class hash over a
sequence of registration calls. -/
def memberOffsets (ops : List RegOp) (h : HashID) : List Int :=
  ops.filterMap (fun op =>
    match op with
    | .addClass _ => none
    | .addMember cd md => if cd.hash_code = h then some md.offset else none)

def setFlag (f : HashID → Bool) (h : HashID) : HashID → Bool :=
  fun h' => if h' = h then true else f h'

/-- Registration sequences in which every `AddClass` call carries a
`member_count` of `0` (as the registration macros produce) and occurs
before any `AddMember` call for the same class hash; the flag argument
records the hashes that have already received a member. -/
inductive GoodSeq : (HashID → Bool) → List RegOp → Prop where
  | nil (f : HashID → Bool) : GoodSeq f []
  | cls (f : HashID → Bool) (cd : ClassData) (ops : List RegOp)
      (hcount : cd.member_count = 0) (hflag : f cd.hash_code = false)
      (hrest : GoodSeq f ops) : GoodSeq f (RegOp.addClass cd :: ops)
  | mbr (f : HashID → Bool) (cd : ClassData) (md : MemberData) (ops : List RegOp)
      (hrest : GoodSeq (setFlag f cd.hash_code) ops) :
      GoodSeq f (RegOp.addMember cd md :: ops)

/-! ### Class data fetching -/

/-- `GetClassData(HashID)`: walks `g_reflect->classes` comparing keys,
returns `unknown_class` on miss. -/
def GetClassData_hash (r : DrReflect) (hash_id : HashID) : ClassData :=
  match alFind hash_id r.classes with
  | some c => c
  | none => unknown_class

/-- `GetClassData(std::string)`: walks `g_reflect->classes` comparing the
stored `name`, returns `unknown_class` on miss. -/
def GetClassData_name (r : DrReflect) (class_name : String) : ClassData :=
  go r.classes
where
  go : List (HashID × ClassData) → ClassData
    | [] => unknown_class
    | (_, c) :: rest => if c.name = class_name then c else go rest

/-! ### Member data fetching -/

/-- `g_reflect->members[class_hash_id]` uses `operator[]`, which
default-inserts an empty member map when the key is absent.  Returns
the (possibly updated) registry together with the map. -/
def ensureMembers (r : DrReflect) (h : HashID) : DrReflect × MemberMap :=
  match alFind h r.members with
  | some mm => (r, mm)
  | none => ({ r with members := alInsert h ([] : MemberMap) r.members }, [])

/-- The counting walk of `GetMemberData(HashID, int)`:
`if (count == member_index) return member.second; ++count;`. -/
def nthMemberAux : MemberMap → Int → Int → MemberData
  | [], _, _ => unknown_member
  | (_, v) :: rest, count, idx =>
    if count = idx then v else nthMemberAux rest (count + 1) idx

/-- `GetMemberData(HashID class_hash_id, int member_index)`: walks the
offset-ordered member map counting entries; `unknown_member` on miss.
The state component records the `operator[]` default-insertion. -/
def GetMemberData_index (r : DrReflect) (class_hash_id : HashID) (member_index : Int) :
    MemberData × DrReflect :=
  let res := ensureMembers r class_hash_id
  (nthMemberAux res.2 0 member_index, res.1)

/-- The name-comparison walk of `GetMemberData(HashID, std::string)`. -/
def findMemberByName (member_name : String) : MemberMap → MemberData
  | [] => unknown_member
  | (_, v) :: rest => if v.name = member_name then v else findMemberByName member_name rest

/-- `GetMemberData(HashID class_hash_id, std::string member_name)`: walks
the member map comparing names; `unknown_member` on miss.  The state
component records the `operator[]` default-insertion. -/
def GetMemberData_name (r : DrReflect) (class_hash_id : HashID) (member_name : String) :
    MemberData × DrReflect :=
  let res := ensureMembers r class_hash_id
  (findMemberByName member_name res.2, res.1)

/-! ### Member value universe and accessors -/

/-- The closed universe of member value types used with the accessors
(each a `MEMBER_TYPE_*` constant in the source). -/
inductive MTy where
  | mBool | mChar | mString | mInt | mUInt | mLong | mVecInt | mVecString
deriving DecidableEq

/-- Lean carrier of each member value type. -/
def MTy.interp : MTy → Type
  | .mBool => Bool
  | .mChar => Int
  | .mString => String
  | .mInt => Int
  | .mUInt => Nat
  | .mLong => Int
  | .mVecInt => List Int
  | .mVecString => List String

/-- `CreateHashID<T>()` — `typeid(T).hash_code()`: an opaque distinct
nonzero value per type. -/
def CreateHashID : MTy → HashID
  | .mBool => 1
  | .mChar => 2
  | .mString => 3
  | .mInt => 4
  | .mUInt => 5
  | .mLong => 6
  | .mVecInt => 7
  | .mVecString => 8

/-- Content of one memory cell of a record instance: either
uninitialized / unmodelled bytes, or a stored value of a known type. -/
inductive MVal where
  | undef
  | val (t : MTy) (v : t.interp)

/-- A record instance's storage: a map from byte offset to content. -/
abbrev Memory := Int → MVal

/-- `InternalGetValue<ReturnType>(char* class_ptr, MemberData)`: asserts
the member was found (`name != "unknown"`) and that the stored type hash
matches the requested type (assert failures are `none`), then returns
the memory content reinterpreted at `class_ptr + offset`. -/
def InternalGetValue (t : MTy) (mem : Memory) (member_data : MemberData) : Option MVal :=
  if member_data.name = "unknown" then none
  else if member_data.hash_code = CreateHashID t then some (mem member_data.offset)
  else none

/-- `InternalSetValue<MemberType>(char* class_ptr, MemberData, value)`:
same assertions (failures are `none`, and no write occurs), then assigns
`value` into the storage at `class_ptr + offset`. -/
def InternalSetValue (t : MTy) (mem : Memory) (member_data : MemberData)
    (value : t.interp) : Option Memory :=
  if member_data.name = "unknown" then none
  else if member_data.hash_code = CreateHashID t then
    some (fun o => if o = member_data.offset then MVal.val t value else mem o)
  else none

/-! ### Meta data (annotation) accessors -/

/-- `SetClassMeta(ClassData&, int, std::string)`:
`if (hash_code != 0) meta_int_map[key] = data`. -/
def SetClassMeta_int (class_data : ClassData) (key : Int) (data : String) : ClassData :=
  if class_data.hash_code ≠ 0 then
    { class_data with meta_int_map := alInsert key data class_data.meta_int_map }
  else class_data

/-- `SetClassMeta(ClassData&, std::string, std::string)`. -/
def SetClassMeta_str (class_data : ClassData) (key : String) (data : String) : ClassData :=
  if class_data.hash_code ≠ 0 then
    { class_data with meta_string_map := alInsert key data class_data.meta_string_map }
  else class_data

/-- `GetClassMeta(ClassData&, int)`: the stored string when the hash code
is nonzero and the key is present, otherwise `""`. -/
def GetClassMeta_int (class_data : ClassData) (key : Int) : String :=
  if class_data.hash_code ≠ 0 then
    match alFind key class_data.meta_int_map with
    | some s => s
    | none => ""
  else ""

/-- `GetClassMeta(ClassData&, std::string)`. -/
def GetClassMeta_str (class_data : ClassData) (key : String) : String :=
  if class_data.hash_code ≠ 0 then
    match alFind key class_data.meta_string_map with
    | some s => s
    | none => ""
  else ""

/-- `SetMemberMeta(MemberData&, int, std::string)`. -/
def SetMemberMeta_int (member_data : MemberData) (key : Int) (data : String) : MemberData :=
  if member_data.hash_code ≠ 0 then
    { member_data with meta_int_map := alInsert key data member_data.meta_int_map }
  else member_data

/-- `SetMemberMeta(MemberData&, std::string, std::string)`. -/
def SetMemberMeta_str (member_data : MemberData) (key : String) (data : String) : MemberData :=
  if member_data.hash_code ≠ 0 then
    { member_data with meta_string_map := alInsert key data member_data.meta_string_map }
  else member_data

/-- `GetMemberMeta(MemberData&, int)`. -/
def GetMemberMeta_int (member_data : MemberData) (key : Int) : String :=
  if member_data.hash_code ≠ 0 then
    match alFind key member_data.meta_int_map with
    | some s => s
    | none => ""
  else ""

/-- `GetMemberMeta(MemberData&, std::string)`. -/
def GetMemberMeta_str (member_data : MemberData) (key : String) : String :=
  if member_data.hash_code ≠ 0 then
    match alFind key member_data.meta_string_map with
    | some s => s
    | none => ""
  else ""

/-! ### Title formatting (`CreateTitle`) — ASCII byte model -/

/-- C `toupper` restricted to ASCII. -/
def toupperB (n : Nat) : Nat := if 97 ≤ n ∧ n ≤ 122 then n - 32 else n

/-- C `islower` on ASCII. -/
def islowerB (n : Nat) : Prop := 97 ≤ n ∧ n ≤ 122

/-- C `isupper` on ASCII. -/
def isupperB (n : Nat) : Prop := 65 ≤ n ∧ n ≤ 90

/-- C `isalpha` on ASCII. -/
def isalphaB (n : Nat) : Prop := islowerB n ∨ isupperB n

/-- C `isnumber` on ASCII digits. -/
def isnumberB (n : Nat) : Prop := 48 ≤ n ∧ n ≤ 57

instance (n : Nat) : Decidable (islowerB n) := instDecidableAnd
instance (n : Nat) : Decidable (isupperB n) := instDecidableAnd
instance (n : Nat) : Decidable (isalphaB n) := instDecidableOr
instance (n : Nat) : Decidable (isnumberB n) := instDecidableAnd

/-- The capitalization loop of `CreateTitle`:
`if (name[c-1] == ' ') name[c] = toupper(name[c])`, reading the
previous character from the in-place-updated string. -/
def capAux : Nat → List Nat → List Nat
  | _, [] => []
  | prev, c :: rest =>
    let c' := if prev = 32 then toupperB c else c
    c' :: capAux c' rest

/-- The space-insertion loop of `CreateTitle`: an accumulator `title`
into which each character is appended, preceded by a space at a
lowercase→uppercase or alpha→digit boundary. -/
def titleAccumAux (prev : Nat) (l : List Nat) (title : List Nat) : List Nat :=
  match l with
  | [] => title
  | c :: rest =>
    titleAccumAux c rest
      (title ++ (if islowerB prev ∧ isupperB c then [32, c]
                 else if isalphaB prev ∧ isnumberB c then [32, c]
                 else [c]))

/-- `void CreateTitle(std::string& name)` of `src/reflect.h`, modelled
on the list of ASCII byte values of the string: replace underscores by
spaces, capitalize the first character and characters after spaces
(in place), then rebuild the string inserting separating spaces. -/
def CreateTitle (name : List Nat) : List Nat :=
  match name with
  | [] => []
  | c :: rest =>
    let c0 := if c = 95 then 32 else c
    let restR := rest.map (fun ch => if ch = 95 then 32 else ch)
    let c0' := toupperB c0
    let p1 := capAux c0' restR
    titleAccumAux c0' p1 [c0']

/-! #### Spec-side description of the title transform

The specification describes the transform declaratively: "replace
separator characters with spaces; capitalize the first character and
any character immediately following a space; insert an additional
space at a lowercase→uppercase transition and at a letter→digit
transition."  The following definitions follow those words. -/

/-- Spec phrase "replace separator characters (underscores) with
spaces". -/
def replaceUnderscores (l : List Nat) : List Nat :=
  l.map (fun ch => if ch = 95 then 32 else ch)

/-- Spec phrase "capitalize any character immediately following a
space", judged against the characters of the given string itself. -/
def capSpecAux : Nat → List Nat → List Nat
  | _, [] => []
  | prev, c :: rest => (if prev = 32 then toupperB c else c) :: capSpecAux c rest

/-- Spec phrase "insert an additional space at a lowercase→uppercase
transition and at a letter→digit transition". -/
def insSpecAux : Nat → List Nat → List Nat
  | _, [] => []
  | prev, c :: rest =>
    if islowerB prev ∧ isupperB c then 32 :: c :: insSpecAux c rest
    else if isalphaB prev ∧ isnumberB c then 32 :: c :: insSpecAux c rest
    else c :: insSpecAux c rest

def insertSpaces : List Nat → List Nat
  | [] => []
  | c :: rest => c :: insSpecAux c rest

/-- The title transform as the specification words it: replace
underscores with spaces, capitalize the first character and every
character following a space, then insert boundary spaces. -/
def CreateTitleSpec (name : List Nat) : List Nat :=
  match replaceUnderscores name with
  | [] => []
  | c :: rest => insertSpaces (toupperB c :: capSpecAux c rest)

/-! ### Concrete sample data (used to evaluate the development) -/

/-- The freshly created, empty registry singleton. -/
def empty_reflect : DrReflect := {}

/-- A concrete registered-looking member schema (an `int width` field). -/
def sample_member : MemberData :=
  { name := "width", title := "Width", index := 0,
    hash_code := CreateHashID .mInt, offset := 0, size := 4 }

/-- A concrete class schema with one annotation of each kind. -/
def sample_class : ClassData :=
  { name := "Transform2D", title := "Transform 2D", hash_code := 9,
    meta_int_map := [(0, "Describes object in 2D space.")],
    meta_string_map := [("icon", "assets/transform.png")] }

/-- A second member schema at a larger offset (a `std::string label`). -/
def sample_member2 : MemberData :=
  { name := "label", title := "Label", index := 1,
    hash_code := CreateHashID .mString, offset := 8, size := 32 }

/-- A registry in which `sample_class` is registered and has no fields. -/
def sample_reflect : DrReflect := { classes := [(9, sample_class)], members := [] }

/-- A registration sequence that re-registers a class after one of its
fields has been registered (possible with the macros when
`CLASS_META_DATA` is written after a `REFLECT_MEMBER`). -/
def reregister_ops : List RegOp :=
  [RegOp.addClass sample_class, RegOp.addMember sample_class sample_member,
   RegOp.addClass sample_class]

/-- A macro-ordered registration sequence: class first, then fields. -/
def good_ops : List RegOp :=
  [RegOp.addClass sample_class, RegOp.addMember sample_class sample_member,
   RegOp.addMember sample_class sample_member2]

/-- The registry produced by `good_ops`. -/
def good_reflect : DrReflect := (runOps good_ops empty_reflect).getD empty_reflect

/-- The class schema stored for hash `9` after `good_ops`. -/
def good_class : ClassData := GetClassData_hash good_reflect 9

/-- A record instance whose storage is all uninitialized. -/
def sample_memory : Memory := fun _ => MVal.undef

/-! ### Lemmas about the association-list maps -/

theorem alFind_alInsert_self {K V : Type} [DecidableEq K] (k : K) (v : V)
    (l : List (K × V)) : alFind k (alInsert k v l) = some v := by
  induction l with
  | nil => simp [alInsert, alFind]
  | cons p rest ih =>
    by_cases h : p.1 = k
    · simp [alInsert, h, alFind]
    · simp [alInsert, h, alFind, ih]

theorem alFind_alInsert_ne {K V : Type} [DecidableEq K] {k k' : K} (v : V)
    (l : List (K × V)) (hne : k' ≠ k) :
    alFind k' (alInsert k v l) = alFind k' l := by
  have hne' : ¬ k = k' := fun h => hne h.symm
  induction l with
  | nil => simp [alInsert, alFind, hne']
  | cons p rest ih =>
    by_cases h : p.1 = k
    · simp [alInsert, h, alFind, hne']
    · by_cases h' : p.1 = k'
      · simp [alInsert, h, alFind, h', hne]
      · simp [alInsert, h, alFind, h', ih]

/-! ### Lemmas about the ordered member map -/

theorem mem_mapInsert {k : Int} {v : MemberData} {l : MemberMap} {p : Int × MemberData}
    (h : p ∈ mapInsert k v l) : p = (k, v) ∨ p ∈ l := by
  induction l with
  | nil => simpa [mapInsert] using h
  | cons q rest ih =>
    by_cases h1 : k < q.1
    · simp [mapInsert, h1] at h
      rcases h with h | h | h
      · exact Or.inl h
      · exact Or.inr (by simp [h])
      · exact Or.inr (by simp [h])
    · by_cases h2 : k = q.1
      · simp [mapInsert, h1, h2] at h
        rcases h with h | h
        · exact Or.inl (by rw [h2]; exact h)
        · exact Or.inr (by simp [h])
      · simp [mapInsert, h1, h2] at h
        rcases h with h | h
        · exact Or.inr (by simp [h])
        · rcases ih h with h' | h'
          · exact Or.inl h'
          · exact Or.inr (by simp [h'])

/-- `mapInsert` preserves the strict ascending key order of the member
map (the `std::map` invariant). -/
theorem pairwise_mapInsert {k : Int} {v : MemberData} {l : MemberMap}
    (h : l.Pairwise (fun a b => a.1 < b.1)) :
    (mapInsert k v l).Pairwise (fun a b => a.1 < b.1) := by
  induction l with
  | nil => simp [mapInsert]
  | cons q rest ih =>
    rcases List.pairwise_cons.mp h with ⟨hq, hrest⟩
    by_cases h1 : k < q.1
    · simp only [mapInsert, if_pos h1]
      refine List.pairwise_cons.mpr ⟨?_, h⟩
      intro p hp
      rcases List.mem_cons.mp hp with h' | h'
      · simp [h', h1]
      · exact lt_trans h1 (hq p h')
    · by_cases h2 : k = q.1
      · simp only [mapInsert, if_neg h1, if_pos h2]
        refine List.pairwise_cons.mpr ⟨?_, hrest⟩
        intro p hp
        simpa [h2] using hq p hp
      · simp only [mapInsert, if_neg h1, if_neg h2]
        refine List.pairwise_cons.mpr ⟨?_, ih hrest⟩
        intro p hp
        rcases mem_mapInsert hp with h' | h'
        · have : q.1 < k := by omega
          simp [h', this]
        · exact hq p h'

theorem mapFind_mapInsert_self (k : Int) (v : MemberData) (l : MemberMap) :
    mapFind k (mapInsert k v l) = some v := by
  induction l with
  | nil => simp [mapInsert, mapFind]
  | cons q rest ih =>
    by_cases h1 : k < q.1
    · simp [mapInsert, h1, mapFind]
    · by_cases h2 : k = q.1
      · simp [mapInsert, h1, h2, mapFind]
      · have h3 : ¬ q.1 = k := fun h => h2 h.symm
        simp [mapInsert, h1, h2, mapFind, h3, ih]

theorem mapFind_eq_none {k : Int} {l : MemberMap} (h : ∀ p ∈ l, p.1 ≠ k) :
    mapFind k l = none := by
  induction l with
  | nil => rfl
  | cons q rest ih =>
    have hq : ¬ q.1 = k := h q (by simp)
    simp only [mapFind, if_neg hq]
    exact ih (fun p hp => h p (by simp [hp]))

/-- Replacing the entry at a key already present in a sorted member map
does not change its size. -/
theorem length_mapInsert_of_find_some {k : Int} {v w : MemberData} {l : MemberMap}
    (hs : l.Pairwise (fun a b => a.1 < b.1)) (h : mapFind k l = some w) :
    (mapInsert k v l).length = l.length := by
  induction l with
  | nil => simp [mapFind] at h
  | cons q rest ih =>
    rcases List.pairwise_cons.mp hs with ⟨hq, hrest⟩
    by_cases h2 : q.1 = k
    · have h1 : ¬ k < q.1 := by omega
      simp [mapInsert, h1, h2.symm]
    · simp only [mapFind, if_neg h2] at h
      by_cases h1 : k < q.1
      · exfalso
        have : mapFind k rest = none := by
          refine mapFind_eq_none (fun p hp => ?_)
          have := hq p hp
          omega
        simp [this] at h
      · have h2' : ¬ k = q.1 := fun hh => h2 hh.symm
        simp [mapInsert, h1, h2', ih hrest h]

/-- The key set after `mapInsert` is the old key set plus the new key. -/
theorem keys_mapInsert (k : Int) (v : MemberData) (l : MemberMap) :
    ((mapInsert k v l).map Prod.fst).toFinset = insert k (l.map Prod.fst).toFinset := by
  induction l with
  | nil => simp [mapInsert]
  | cons q rest ih =>
    by_cases h1 : k < q.1
    · simp [mapInsert, h1]
    · by_cases h2 : k = q.1
      · simp [mapInsert, h1, h2]
      · simp only [mapInsert, if_neg h1, if_neg h2, List.map_cons, List.toFinset_cons, ih]
        exact Finset.Insert.comm q.1 k _

/-- Inserting a key larger than every present key appends at the end. -/
theorem mapInsert_eq_append {k : Int} {v : MemberData} {l : MemberMap}
    (h : ∀ p ∈ l, p.1 < k) : mapInsert k v l = l ++ [(k, v)] := by
  induction l with
  | nil => rfl
  | cons q rest ih =>
    have hq : q.1 < k := h q (by simp)
    have h1 : ¬ k < q.1 := by omega
    have h2 : ¬ k = q.1 := by omega
    simp only [mapInsert, if_neg h1, if_neg h2, List.cons_append, List.cons.injEq, true_and]
    exact ih (fun p hp => h p (by simp [hp]))

/-! ### Lemmas about the counting walk -/

theorem nthMemberAux_get (l : MemberMap) : ∀ (c : Int) (j : Nat) (h : j < l.length),
    nthMemberAux l c (c + j) = (l.get ⟨j, h⟩).2 := by
  induction l with
  | nil => intro c j h; simp at h
  | cons q rest ih =>
    intro c j h
    cases j with
    | zero => simp [nthMemberAux]
    | succ j' =>
      have harg : c + ((j' + 1 : Nat) : Int) = (c + 1) + (j' : Nat) := by push_cast; ring
      rw [harg]
      have hne : ¬ c = (c + 1) + ((j' : Nat) : Int) := by omega
      simp only [nthMemberAux, if_neg hne]
      exact ih (c + 1) j' (by simpa using h)

theorem nthMemberAux_out_of_range (l : MemberMap) : ∀ (c idx : Int),
    (idx < c ∨ c + l.length ≤ idx) → nthMemberAux l c idx = unknown_member := by
  induction l with
  | nil => intro c idx _; rfl
  | cons q rest ih =>
    intro c idx h
    have hne : ¬ c = idx := by
      rcases h with h | h
      · omega
      · simp only [List.length_cons] at h
        omega
    simp only [nthMemberAux, if_neg hne]
    refine ih (c + 1) idx ?_
    rcases h with h | h
    · omega
    · right
      simp only [List.length_cons] at h
      push_cast at h ⊢
      omega

theorem alFind_eq_none {K V : Type} [DecidableEq K] {k : K} {l : List (K × V)}
    (h : ∀ p ∈ l, p.1 ≠ k) : alFind k l = none := by
  induction l with
  | nil => rfl
  | cons q rest ih =>
    have hq : ¬ q.1 = k := h q (by simp)
    simp only [alFind, if_neg hq]
    exact ih (fun p hp => h p (by simp [hp]))

/-! ### Lemmas about `ensureMembers` (the `operator[]` default-insert) -/

theorem ensureMembers_snd (r : DrReflect) (h : HashID) :
    (ensureMembers r h).2 = (alFind h r.members).getD [] := by
  unfold ensureMembers
  cases alFind h r.members <;> rfl

theorem ensureMembers_classes (r : DrReflect) (h : HashID) :
    (ensureMembers r h).1.classes = r.classes := by
  unfold ensureMembers
  cases alFind h r.members <;> rfl

theorem ensureMembers_find_self (r : DrReflect) (h : HashID) :
    alFind h (ensureMembers r h).1.members = some ((alFind h r.members).getD []) := by
  unfold ensureMembers
  cases hf : alFind h r.members with
  | none => simpa using alFind_alInsert_self h ([] : MemberMap) r.members
  | some mm => simpa using hf

theorem ensureMembers_find_ne (r : DrReflect) {h h' : HashID} (hne : h' ≠ h) :
    alFind h' (ensureMembers r h).1.members = alFind h' r.members := by
  unfold ensureMembers
  cases hf : alFind h r.members with
  | none => simpa using alFind_alInsert_ne ([] : MemberMap) r.members hne
  | some mm => rfl

theorem ensureMembers_idem (r : DrReflect) (h : HashID) :
    ensureMembers (ensureMembers r h).1 h = ensureMembers r h := by
  cases hf : alFind h r.members with
  | some mm => simp [ensureMembers, hf]
  | none => simp [ensureMembers, hf, alFind_alInsert_self]

/-! ## Claim theorems -/

/-- C1: Round trip through the accessor — for every field schema whose
stored type hash matches the requested type `t`, every record instance
memory and every value `v` of type `t`, `InternalSetValue` succeeds and
a subsequent `InternalGetValue` on the updated memory returns exactly
the stored value `v`. -/
theorem set_get_roundtrip (t : MTy) (mem : Memory) (md : MemberData) (v : t.interp)
    (hname : md.name ≠ "unknown") (hty : md.hash_code = CreateHashID t) :
    ∃ mem', InternalSetValue t mem md v = some mem' ∧
      InternalGetValue t mem' md = some (MVal.val t v) := by
  refine ⟨fun o => if o = md.offset then MVal.val t v else mem o, ?_, ?_⟩
  · simp [InternalSetValue, hname, hty]
  · simp [InternalGetValue, hname, hty]

theorem set_get_roundtrip_witness :
    ∃ mem', InternalSetValue .mInt sample_memory sample_member (7 : Int) = some mem' ∧
      InternalGetValue .mInt mem' sample_member = some (MVal.val .mInt (7 : Int)) :=
  set_get_roundtrip .mInt sample_memory sample_member (7 : Int) (by decide) rfl

/-- C2: `Get`/`Set` with the unknown sentinel field or a mismatched type
hash fail fatally (assertion, modelled as `none`) — no value is returned
and no write occurs; under the preconditions (known field, matching type
hash) the failure branch is unreachable (both calls succeed). -/
theorem accessor_type_mismatch_fatal (t : MTy) (mem : Memory) (md : MemberData)
    (v : t.interp) :
    ((md.name = "unknown" ∨ md.hash_code ≠ CreateHashID t) →
      InternalGetValue t mem md = none ∧ InternalSetValue t mem md v = none)
    ∧ (md.name ≠ "unknown" → md.hash_code = CreateHashID t →
      (InternalGetValue t mem md).isSome ∧ (InternalSetValue t mem md v).isSome) := by
  constructor
  · rintro (h | h)
    · simp [InternalGetValue, InternalSetValue, h]
    · by_cases hn : md.name = "unknown"
      · simp [InternalGetValue, InternalSetValue, hn]
      · simp [InternalGetValue, InternalSetValue, hn, h]
  · intro hn ht
    simp [InternalGetValue, InternalSetValue, hn, ht]

theorem accessor_type_mismatch_fatal_witness :
    InternalGetValue .mInt sample_memory unknown_member = none ∧
      InternalSetValue .mInt sample_memory unknown_member (3 : Int) = none :=
  (accessor_type_mismatch_fatal .mInt sample_memory unknown_member (3 : Int)).1 (Or.inl rfl)

/-- C5: every record lookup that matches no registered record returns
the `unknown_class` sentinel (`hash_code = 0`, `name = "unknown"`) and
never raises; member lookups by index or name likewise return the
`unknown_member` sentinel on a miss. -/
theorem lookup_miss_returns_sentinel (r : DrReflect) (h : HashID) (s nm : String)
    (n : Int) :
    ((∀ p ∈ r.classes, p.1 ≠ h) → GetClassData_hash r h = unknown_class)
    ∧ ((∀ p ∈ r.classes, p.2.name ≠ s) → GetClassData_name r s = unknown_class)
    ∧ (unknown_class.hash_code = 0 ∧ unknown_class.name = "unknown")
    ∧ ((n < 0 ∨ (((alFind h r.members).getD []).length : Int) ≤ n) →
        (GetMemberData_index r h n).1 = unknown_member)
    ∧ ((∀ p ∈ (alFind h r.members).getD [], p.2.name ≠ nm) →
        (GetMemberData_name r h nm).1 = unknown_member)
    ∧ (unknown_member.hash_code = 0 ∧ unknown_member.name = "unknown") := by
  refine ⟨?_, ?_, ⟨rfl, rfl⟩, ?_, ?_, ⟨rfl, rfl⟩⟩
  · intro hmiss
    simp [GetClassData_hash, alFind_eq_none hmiss]
  · intro hmiss
    have : ∀ l : List (HashID × ClassData), (∀ p ∈ l, p.2.name ≠ s) →
        GetClassData_name.go s l = unknown_class := by
      intro l
      induction l with
      | nil => intro _; rfl
      | cons q rest ih =>
        intro hl
        have hq : ¬ q.2.name = s := hl q (by simp)
        simp only [GetClassData_name.go, if_neg hq]
        exact ih (fun p hp => hl p (by simp [hp]))
    exact this r.classes hmiss
  · intro hrange
    show nthMemberAux (ensureMembers r h).2 0 n = unknown_member
    rw [ensureMembers_snd]
    refine nthMemberAux_out_of_range _ 0 n ?_
    rcases hrange with h' | h'
    · exact Or.inl h'
    · exact Or.inr (by omega)
  · intro hmiss
    show findMemberByName nm (ensureMembers r h).2 = unknown_member
    rw [ensureMembers_snd]
    have hgen : ∀ l : MemberMap, (∀ p ∈ l, p.2.name ≠ nm) →
        findMemberByName nm l = unknown_member := by
      intro l
      induction l with
      | nil => intro _; rfl
      | cons q rest ih =>
        intro hl
        have hq : ¬ q.2.name = nm := hl q (by simp)
        simp only [findMemberByName, if_neg hq]
        exact ih (fun p hp => hl p (by simp [hp]))
    exact hgen _ hmiss

theorem lookup_miss_returns_sentinel_witness :
    GetClassData_hash empty_reflect 42 = unknown_class ∧
      (GetMemberData_index empty_reflect 42 0).1 = unknown_member :=
  ⟨(lookup_miss_returns_sentinel empty_reflect 42 "Widget" "width" 0).1
      (by intro p hp; simp [empty_reflect] at hp),
   (lookup_miss_returns_sentinel empty_reflect 42 "Widget" "width" 0).2.2.2.1
      (by simp [empty_reflect, alFind])⟩

/-- C6: `AddMember` (RegisterField) fails fatally — assertion, modelled
as `none` — when the record schema's type hash is `0` or was never
registered via `AddClass`; when the record type is registered (hence
with a nonzero hash) the failure branch is unreachable and the call
succeeds. -/
theorem register_field_requires_record (r : DrReflect) (cd : ClassData)
    (md : MemberData) :
    ((cd.hash_code = 0 ∨ alFind cd.hash_code r.classes = none) →
      AddMember r cd md = none)
    ∧ (cd.hash_code ≠ 0 → (alFind cd.hash_code r.classes).isSome →
      (AddMember r cd md).isSome) := by
  constructor
  · rintro (h | h)
    · simp [AddMember, h]
    · by_cases h0 : cd.hash_code = 0
      · simp [AddMember, h0]
      · simp [AddMember, h0, h]
  · intro h0 hsome
    rcases Option.isSome_iff_exists.mp hsome with ⟨c, hc⟩
    simp [AddMember, h0, hc]

theorem register_field_requires_record_witness :
    AddMember empty_reflect sample_class sample_member = none :=
  (register_field_requires_record empty_reflect sample_class sample_member).1
    (Or.inr rfl)

/-- C10: setting an annotation on a schema whose type hash is `0` (the
unknown sentinel) is silently dropped — the schema, including both
annotation maps and all other fields, is returned completely unchanged,
and no error is reported (the functions are total). -/
theorem set_annotation_on_sentinel_dropped (cd : ClassData) (md : MemberData)
    (ki : Int) (ks d : String) (hc : cd.hash_code = 0) (hm : md.hash_code = 0) :
    SetClassMeta_int cd ki d = cd ∧ SetClassMeta_str cd ks d = cd ∧
      SetMemberMeta_int md ki d = md ∧ SetMemberMeta_str md ks d = md := by
  refine ⟨?_, ?_, ?_, ?_⟩ <;>
    simp [SetClassMeta_int, SetClassMeta_str, SetMemberMeta_int, SetMemberMeta_str,
      hc, hm]

theorem set_annotation_on_sentinel_dropped_witness :
    SetClassMeta_int unknown_class 0 "dropped" = unknown_class ∧
      SetClassMeta_str unknown_class "icon" "dropped" = unknown_class ∧
      SetMemberMeta_int unknown_member 0 "dropped" = unknown_member ∧
      SetMemberMeta_str unknown_member "icon" "dropped" = unknown_member :=
  set_annotation_on_sentinel_dropped unknown_class unknown_member 0 "icon" "dropped"
    rfl rfl

/-- C7 (counterexample): a member-data lookup is not state-preserving —
`GetMemberData(hash, index)` accesses `g_reflect->members[hash]` with
`operator[]`, which default-inserts an empty member map when the type
hash is absent; on the empty registry a lookup with hash `1` leaves the
registry with a new (empty) field map stored under key `1`. -/
theorem lookup_mutates_registry_counterexample :
    (GetMemberData_index empty_reflect 1 0).2 ≠ empty_reflect := by decide

/-- C7 (amended): lookups are idempotent and never change any stored
schema: repeating the same lookup returns the same result and leaves
the state fixed, the record-schema map is never touched, and every
field map already present is unchanged.  The one deviation from the
claim is that a field lookup whose type hash is absent from the
field-map table default-inserts an empty field map for that hash
(`operator[]` semantics); record lookups take no state at all. -/
theorem lookup_idempotent_and_schema_preserving (r : DrReflect) (h h' : HashID)
    (n : Int) (s : String) :
    ((GetMemberData_index r h n).2.classes = r.classes)
    ∧ (h' ≠ h → alFind h' (GetMemberData_index r h n).2.members = alFind h' r.members)
    ∧ (alFind h (GetMemberData_index r h n).2.members =
        some ((alFind h r.members).getD []))
    ∧ (GetMemberData_index (GetMemberData_index r h n).2 h n = GetMemberData_index r h n)
    ∧ ((GetMemberData_name r h s).2.classes = r.classes)
    ∧ (h' ≠ h → alFind h' (GetMemberData_name r h s).2.members = alFind h' r.members)
    ∧ (alFind h (GetMemberData_name r h s).2.members =
        some ((alFind h r.members).getD []))
    ∧ (GetMemberData_name (GetMemberData_name r h s).2 h s = GetMemberData_name r h s) := by
  refine ⟨ensureMembers_classes r h, fun hne => ensureMembers_find_ne r hne,
    ensureMembers_find_self r h, ?_, ensureMembers_classes r h,
    fun hne => ensureMembers_find_ne r hne, ensureMembers_find_self r h, ?_⟩
  · show (nthMemberAux (ensureMembers (ensureMembers r h).1 h).2 0 n,
      (ensureMembers (ensureMembers r h).1 h).1) = _
    rw [ensureMembers_idem]; rfl
  · show (findMemberByName s (ensureMembers (ensureMembers r h).1 h).2,
      (ensureMembers (ensureMembers r h).1 h).1) = _
    rw [ensureMembers_idem]; rfl

theorem lookup_idempotent_and_schema_preserving_witness :
    alFind 2 (GetMemberData_index empty_reflect 1 0).2.members =
      alFind 2 empty_reflect.members :=
  (lookup_idempotent_and_schema_preserving empty_reflect 1 2 0 "width").2.1
    (by decide)

/-- C8: annotation getters never fail (they are total): for every schema
and every integer or string key, the stored string is returned when the
schema's type hash is nonzero and the key is present, and the empty
string is returned when the key is absent or the schema is the unknown
sentinel (type hash `0` short-circuits to empty). -/
theorem get_annotation_total (cd : ClassData) (md : MemberData) (ki : Int)
    (ks : String) :
    (∀ v, cd.hash_code ≠ 0 → alFind ki cd.meta_int_map = some v →
      GetClassMeta_int cd ki = v)
    ∧ (alFind ki cd.meta_int_map = none ∨ cd.hash_code = 0 →
      GetClassMeta_int cd ki = "")
    ∧ (∀ v, cd.hash_code ≠ 0 → alFind ks cd.meta_string_map = some v →
      GetClassMeta_str cd ks = v)
    ∧ (alFind ks cd.meta_string_map = none ∨ cd.hash_code = 0 →
      GetClassMeta_str cd ks = "")
    ∧ (∀ v, md.hash_code ≠ 0 → alFind ki md.meta_int_map = some v →
      GetMemberMeta_int md ki = v)
    ∧ (alFind ki md.meta_int_map = none ∨ md.hash_code = 0 →
      GetMemberMeta_int md ki = "")
    ∧ (∀ v, md.hash_code ≠ 0 → alFind ks md.meta_string_map = some v →
      GetMemberMeta_str md ks = v)
    ∧ (alFind ks md.meta_string_map = none ∨ md.hash_code = 0 →
      GetMemberMeta_str md ks = "") := by
  refine ⟨?_, ?_, ?_, ?_, ?_, ?_, ?_, ?_⟩
  · intro v h0 hf; simp [GetClassMeta_int, h0, hf]
  · rintro (hf | h0)
    · by_cases h0 : cd.hash_code = 0 <;> simp [GetClassMeta_int, h0, hf]
    · simp [GetClassMeta_int, h0]
  · intro v h0 hf; simp [GetClassMeta_str, h0, hf]
  · rintro (hf | h0)
    · by_cases h0 : cd.hash_code = 0 <;> simp [GetClassMeta_str, h0, hf]
    · simp [GetClassMeta_str, h0]
  · intro v h0 hf; simp [GetMemberMeta_int, h0, hf]
  · rintro (hf | h0)
    · by_cases h0 : md.hash_code = 0 <;> simp [GetMemberMeta_int, h0, hf]
    · simp [GetMemberMeta_int, h0]
  · intro v h0 hf; simp [GetMemberMeta_str, h0, hf]
  · rintro (hf | h0)
    · by_cases h0 : md.hash_code = 0 <;> simp [GetMemberMeta_str, h0, hf]
    · simp [GetMemberMeta_str, h0]

theorem get_annotation_total_witness :
    GetClassMeta_int sample_class 0 = "Describes object in 2D space." ∧
      GetMemberMeta_str unknown_member "icon" = "" :=
  ⟨(get_annotation_total sample_class unknown_member 0 "icon").1
      "Describes object in 2D space." (by decide) rfl,
   (get_annotation_total sample_class unknown_member 0 "icon").2.2.2.2.2.2.2
      (Or.inr rfl)⟩

/-! ### Lemmas for the title transform -/

theorem toupperB_eq_space_iff (n : Nat) : toupperB n = 32 ↔ n = 32 := by
  unfold toupperB
  split <;> omega

theorem capAux_eq_capSpecAux : ∀ (l : List Nat) (p q : Nat),
    (p = 32 ↔ q = 32) → capAux p l = capSpecAux q l := by
  intro l
  induction l with
  | nil => intro p q _; rfl
  | cons c rest ih =>
    intro p q h
    by_cases hp : p = 32
    · have hq : q = 32 := h.mp hp
      simp only [capAux, capSpecAux, if_pos hp, if_pos hq]
      exact congrArg _ (ih _ _ (toupperB_eq_space_iff c))
    · have hq : ¬ q = 32 := fun hh => hp (h.mpr hh)
      simp only [capAux, capSpecAux, if_neg hp, if_neg hq]
      exact congrArg _ (ih _ _ Iff.rfl)

theorem titleAccumAux_eq_append : ∀ (l : List Nat) (prev : Nat) (acc : List Nat),
    titleAccumAux prev l acc = acc ++ insSpecAux prev l := by
  intro l
  induction l with
  | nil => intro prev acc; simp [titleAccumAux, insSpecAux]
  | cons c rest ih =>
    intro prev acc
    by_cases h1 : islowerB prev ∧ isupperB c
    · simp only [titleAccumAux, insSpecAux, if_pos h1, ih]
      simp
    · by_cases h2 : isalphaB prev ∧ isnumberB c
      · simp only [titleAccumAux, insSpecAux, if_neg h1, if_pos h2, ih]
        simp
      · simp only [titleAccumAux, insSpecAux, if_neg h1, if_neg h2, ih]
        simp

/-- C9: the title-formatting function is, on every non-empty identifier,
exactly the deterministic transform the specification describes —
replace underscores with spaces, capitalize the first character and
every character immediately following a space, and insert an additional
space at each lowercase→uppercase transition and at each
letter→digit transition (`CreateTitleSpec` is that description). -/
theorem create_title_matches_spec (name : List Nat) (hne : name ≠ []) :
    CreateTitle name = CreateTitleSpec name := by
  cases name with
  | nil => exact absurd rfl hne
  | cons c rest =>
    have hrepl : replaceUnderscores (c :: rest) =
        (if c = 95 then 32 else c) :: rest.map (fun ch => if ch = 95 then 32 else ch) := by
      simp [replaceUnderscores]
    simp only [CreateTitle, CreateTitleSpec, hrepl, insertSpaces,
      titleAccumAux_eq_append, List.singleton_append]
    rw [capAux_eq_capSpecAux _ _ _ (toupperB_eq_space_iff _)]

theorem create_title_matches_spec_witness :
    CreateTitle [97, 95, 98, 50, 100, 67] = CreateTitleSpec [97, 95, 98, 50, 100, 67] :=
  create_title_matches_spec [97, 95, 98, 50, 100, 67] (by decide)

/-! ### Lemmas about the registration operations -/

theorem AddClass_eq {r : DrReflect} {cd : ClassData} {r' : DrReflect}
    (h : AddClass r cd = some r') :
    cd.hash_code ≠ 0 ∧
      r' = { r with classes := alInsert cd.hash_code cd r.classes } := by
  by_cases h0 : cd.hash_code = 0
  · simp [AddClass, h0] at h
  · simp [AddClass, h0] at h
    exact ⟨h0, h.symm⟩

theorem AddMember_eq {r : DrReflect} {cd : ClassData} {md : MemberData} {r' : DrReflect}
    (h : AddMember r cd md = some r') :
    cd.hash_code ≠ 0 ∧ ∃ c, alFind cd.hash_code r.classes = some c ∧
      r' = { classes := alInsert cd.hash_code
               { c with member_count :=
                   (mapInsert md.offset md ((alFind cd.hash_code r.members).getD [])).length }
               r.classes,
             members := alInsert cd.hash_code
               (mapInsert md.offset md ((alFind cd.hash_code r.members).getD []))
               r.members } := by
  by_cases h0 : cd.hash_code = 0
  · simp [AddMember, h0] at h
  · cases hc : alFind cd.hash_code r.classes with
    | none => simp [AddMember, h0, hc] at h
    | some c =>
      simp only [AddMember, if_neg h0, hc] at h
      exact ⟨h0, c, rfl, by simpa using h.symm⟩

/-- Registration preserves the ascending-offset order of every stored
member map. -/
theorem runOps_sorted : ∀ (ops : List RegOp) (r r' : DrReflect),
    runOps ops r = some r' → SortedMembers r → SortedMembers r' := by
  intro ops
  induction ops with
  | nil =>
    intro r r' hrun hs
    simp [runOps] at hrun
    exact hrun ▸ hs
  | cons op rest ih =>
    intro r r' hrun hs
    cases hop : applyOp r op with
    | none => simp [runOps, hop] at hrun
    | some r1 =>
      simp only [runOps, hop] at hrun
      refine ih r1 r' hrun ?_
      cases op with
      | addClass cd =>
        rcases AddClass_eq hop with ⟨_, rfl⟩
        exact hs
      | addMember cd md =>
        rcases AddMember_eq hop with ⟨h0, c, hc, rfl⟩
        intro h
        by_cases hh : h = cd.hash_code
        · subst hh
          simp only [alFind_alInsert_self, Option.getD_some]
          exact pairwise_mapInsert (hs cd.hash_code)
        · simpa [alFind_alInsert_ne _ _ hh] using hs h

/-- Registering a list of fields whose offsets all exceed the keys
already stored, in strictly increasing offset order, appends them to
the class's member map in declaration order. -/
theorem addMembers_increasing : ∀ (fields : List MemberData) (r : DrReflect)
    (cd : ClassData) (mm0 : MemberMap),
    cd.hash_code ≠ 0 →
    (alFind cd.hash_code r.classes).isSome →
    (alFind cd.hash_code r.members).getD [] = mm0 →
    (∀ p ∈ mm0, ∀ f ∈ fields, p.1 < f.offset) →
    fields.Pairwise (fun f g => f.offset < g.offset) →
    ∃ r', runOps (fields.map (RegOp.addMember cd)) r = some r' ∧
      (alFind cd.hash_code r'.members).getD [] = mm0 ++ fields.map (fun f => (f.offset, f)) ∧
      (alFind cd.hash_code r'.classes).isSome := by
  intro fields
  induction fields with
  | nil =>
    intro r cd mm0 _ hcls hmm _ _
    exact ⟨r, rfl, by simp [hmm], hcls⟩
  | cons f fs ih =>
    intro r cd mm0 h0 hcls hmm hlt hpw
    rcases Option.isSome_iff_exists.mp hcls with ⟨c, hc⟩
    rcases List.pairwise_cons.mp hpw with ⟨hf, hpw'⟩
    have happ : mapInsert f.offset f mm0 = mm0 ++ [(f.offset, f)] :=
      mapInsert_eq_append (fun p hp => hlt p hp f (by simp))
    have hstep : AddMember r cd f = some
        { classes := alInsert cd.hash_code
            { c with member_count := (mapInsert f.offset f mm0).length } r.classes,
          members := alInsert cd.hash_code (mapInsert f.offset f mm0) r.members } := by
      simp [AddMember, h0, hc, hmm]
    set r1 : DrReflect :=
      { classes := alInsert cd.hash_code
          { c with member_count := (mapInsert f.offset f mm0).length } r.classes,
        members := alInsert cd.hash_code (mapInsert f.offset f mm0) r.members } with hr1
    have hcls1 : (alFind cd.hash_code r1.classes).isSome := by
      simp [hr1, alFind_alInsert_self]
    have hmm1 : (alFind cd.hash_code r1.members).getD [] = mm0 ++ [(f.offset, f)] := by
      simp [hr1, alFind_alInsert_self, happ]
    have hlt1 : ∀ p ∈ mm0 ++ [(f.offset, f)], ∀ g ∈ fs, p.1 < g.offset := by
      intro p hp g hg
      rcases List.mem_append.mp hp with hp' | hp'
      · exact hlt p hp' g (by simp [hg])
      · have : p = (f.offset, f) := by simpa using hp'
        simpa [this] using hf g hg
    rcases ih r1 cd (mm0 ++ [(f.offset, f)]) h0 hcls1 hmm1 hlt1 hpw' with
      ⟨r', hrun, hres, hcls'⟩
    refine ⟨r', ?_, ?_, hcls'⟩
    · simpa [runOps, applyOp, hstep] using hrun
    · simpa [List.append_assoc] using hres

/-- C3: integer lookup returns the Nth entry of the class's member map
in ascending byte-offset order — (i) the walk returns the Nth stored
entry, (ii) every stored member map of a registry produced by
registration is in strictly ascending offset order, and (iii)
consequently, when a class's fields are registered in strictly
increasing offset order with declaration indices `0, 1, …`, looking up
`F.index` returns exactly the field schema `F` (in particular its
declared name). -/
theorem index_lookup_is_offset_order :
    (∀ (r : DrReflect) (h : HashID) (mm : MemberMap) (j : Nat)
        (hmm : alFind h r.members = some mm) (hj : j < mm.length),
        (GetMemberData_index r h (j : Nat)).1 = (mm.get ⟨j, hj⟩).2)
    ∧ (∀ (ops : List RegOp) (r r' : DrReflect),
        runOps ops r = some r' → SortedMembers r → SortedMembers r')
    ∧ (∀ (r : DrReflect) (cd : ClassData) (fields : List MemberData),
        cd.hash_code ≠ 0 →
        (alFind cd.hash_code r.classes).isSome →
        (alFind cd.hash_code r.members).getD [] = [] →
        fields.Pairwise (fun f g => f.offset < g.offset) →
        (∀ j (hj : j < fields.length), (fields.get ⟨j, hj⟩).index = (j : Int)) →
        ∃ r', runOps (fields.map (RegOp.addMember cd)) r = some r' ∧
          ∀ j (hj : j < fields.length),
            (GetMemberData_index r' cd.hash_code ((fields.get ⟨j, hj⟩).index)).1 =
              fields.get ⟨j, hj⟩) := by
  have hA : ∀ (r : DrReflect) (h : HashID) (mm : MemberMap) (j : Nat)
      (hmm : alFind h r.members = some mm) (hj : j < mm.length),
      (GetMemberData_index r h (j : Nat)).1 = (mm.get ⟨j, hj⟩).2 := by
    intro r h mm j hmm hj
    show nthMemberAux (ensureMembers r h).2 0 (j : Nat) = _
    rw [ensureMembers_snd, hmm, Option.getD_some]
    simpa using nthMemberAux_get mm 0 j hj
  refine ⟨hA, runOps_sorted, ?_⟩
  intro r cd fields h0 hcls hmm hpw hidx
  rcases addMembers_increasing fields r cd [] h0 hcls hmm (by simp) hpw with
    ⟨r', hrun, hres, _⟩
  refine ⟨r', hrun, ?_⟩
  intro j hj
  rw [hidx j hj]
  have hj' : j < (fields.map (fun f => (f.offset, f))).length := by simpa using hj
  have hfind : alFind cd.hash_code r'.members =
      some (fields.map (fun f => (f.offset, f))) := by
    cases hf : alFind cd.hash_code r'.members with
    | none =>
      exfalso
      rw [hf] at hres
      simp only [Option.getD_none, List.nil_append] at hres
      have hlen := congrArg List.length hres
      simp only [List.length_nil, List.length_map] at hlen
      omega
    | some mm' =>
      rw [hf] at hres
      simp only [Option.getD_some, List.nil_append] at hres
      rw [hres]
  have := hA r' cd.hash_code (fields.map (fun f => (f.offset, f))) j hfind hj'
  rw [this]
  simp [List.get_eq_getElem, List.getElem_map]

theorem index_lookup_is_offset_order_witness :
    ∃ r', runOps ([sample_member, sample_member2].map (RegOp.addMember sample_class))
        sample_reflect = some r' ∧
      ∀ j (hj : j < ([sample_member, sample_member2] : List MemberData).length),
        (GetMemberData_index r' sample_class.hash_code
            ((([sample_member, sample_member2] : List MemberData).get ⟨j, hj⟩).index)).1 =
          ([sample_member, sample_member2] : List MemberData).get ⟨j, hj⟩ :=
  index_lookup_is_offset_order.2.2 sample_reflect sample_class
    [sample_member, sample_member2] (by decide) (by decide) rfl
    (by simp [List.pairwise_cons, sample_member, sample_member2])
    (by
      intro j hj
      simp only [List.length_cons, List.length_nil] at hj
      interval_cases j <;> rfl)

/-- Invariant carried through a well-ordered registration sequence: the
stored `member_count` of every registered class tracks the size of its
member map, the key set of every member map grows by exactly the
registered offsets, and all member maps stay sorted. -/
theorem goodSeq_count_invariant : ∀ (ops : List RegOp) (f : HashID → Bool)
    (r r' : DrReflect),
    GoodSeq f ops → runOps ops r = some r' →
    (∀ (h : HashID) (c : ClassData), alFind h r.classes = some c →
      c.member_count = ((alFind h r.members).getD []).length) →
    (∀ h : HashID, f h = false → (alFind h r.members).getD [] = []) →
    SortedMembers r →
    ((∀ (h : HashID) (c : ClassData), alFind h r'.classes = some c →
        c.member_count = ((alFind h r'.members).getD []).length)
      ∧ (∀ h : HashID, (((alFind h r'.members).getD []).map Prod.fst).toFinset =
          (((alFind h r.members).getD []).map Prod.fst).toFinset ∪
            (memberOffsets ops h).toFinset)
      ∧ SortedMembers r') := by
  intro ops
  induction ops with
  | nil =>
    intro f r r' hg hrun hcount hflag hsort
    simp only [runOps, Option.some.injEq] at hrun
    subst hrun
    exact ⟨hcount, by simp [memberOffsets], hsort⟩
  | cons op rest ih =>
    intro f r r' hg hrun hcount hflag hsort
    cases hg with
    | cls _ cd _ hc0 hfl hrest =>
      cases hop : AddClass r cd with
      | none => simp [runOps, applyOp, hop] at hrun
      | some r1 =>
        simp only [runOps, applyOp, hop] at hrun
        rcases AddClass_eq hop with ⟨h0, rfl⟩
        have hcount1 : ∀ (h : HashID) (c : ClassData),
            alFind h (alInsert cd.hash_code cd r.classes) = some c →
            c.member_count = ((alFind h r.members).getD []).length := by
          intro h c hfind
          by_cases hh : h = cd.hash_code
          · subst hh
            rw [alFind_alInsert_self] at hfind
            cases hfind
            rw [hc0, hflag cd.hash_code hfl]
            rfl
          · rw [alFind_alInsert_ne _ _ hh] at hfind
            exact hcount h c hfind
        rcases ih f _ r' hrest hrun hcount1 hflag hsort with ⟨hA, hB, hC⟩
        refine ⟨hA, ?_, hC⟩
        intro h
        have : memberOffsets (RegOp.addClass cd :: rest) h = memberOffsets rest h := by
          simp [memberOffsets]
        rw [this]
        exact hB h
    | mbr _ cd md _ hrest =>
      cases hop : AddMember r cd md with
      | none => simp [runOps, applyOp, hop] at hrun
      | some r1 =>
        simp only [runOps, applyOp, hop] at hrun
        rcases AddMember_eq hop with ⟨h0, c, hc, rfl⟩
        set mm' : MemberMap :=
          mapInsert md.offset md ((alFind cd.hash_code r.members).getD []) with hmm'
        have hcount1 : ∀ (h : HashID) (c' : ClassData),
            alFind h (alInsert cd.hash_code { c with member_count := mm'.length }
              r.classes) = some c' →
            c'.member_count =
              ((alFind h (alInsert cd.hash_code mm' r.members)).getD []).length := by
          intro h c' hfind
          by_cases hh : h = cd.hash_code
          · subst hh
            rw [alFind_alInsert_self] at hfind
            cases hfind
            simp [alFind_alInsert_self]
          · rw [alFind_alInsert_ne _ _ hh] at hfind
            rw [alFind_alInsert_ne _ _ hh]
            exact hcount h c' hfind
        have hflag1 : ∀ h : HashID, setFlag f cd.hash_code h = false →
            (alFind h (alInsert cd.hash_code mm' r.members)).getD [] = [] := by
          intro h hfl
          have hh : h ≠ cd.hash_code := by
            intro hcontra
            simp [setFlag, hcontra] at hfl
          rw [alFind_alInsert_ne _ _ hh]
          refine hflag h ?_
          simpa [setFlag, if_neg hh] using hfl
        have hsort1 : SortedMembers
            { classes := alInsert cd.hash_code { c with member_count := mm'.length }
                r.classes,
              members := alInsert cd.hash_code mm' r.members } := by
          intro h
          by_cases hh : h = cd.hash_code
          · subst hh
            simp only [alFind_alInsert_self, Option.getD_some]
            exact pairwise_mapInsert (hsort cd.hash_code)
          · simpa [alFind_alInsert_ne _ _ hh] using hsort h
        rcases ih _ _ r' hrest hrun hcount1 hflag1 hsort1 with ⟨hA, hB, hC⟩
        refine ⟨hA, ?_, hC⟩
        intro h
        rw [hB h]
        by_cases hh : h = cd.hash_code
        · subst hh
          have hoff : memberOffsets (RegOp.addMember cd md :: rest) cd.hash_code =
              md.offset :: memberOffsets rest cd.hash_code := by
            simp [memberOffsets]
          rw [hoff]
          simp only [alFind_alInsert_self, Option.getD_some, hmm', keys_mapInsert,
            List.toFinset_cons]
          rw [Finset.insert_union, Finset.union_insert]
        · have hh' : ¬ cd.hash_code = h := fun hcontra => hh hcontra.symm
          have hoff : memberOffsets (RegOp.addMember cd md :: rest) h =
              memberOffsets rest h := by
            simp [memberOffsets, hh']
          rw [hoff, alFind_alInsert_ne _ _ hh]

/-- C4 (counterexample): the field-count invariant does not hold after
every sequence of registration calls — re-registering a class after one
of its fields was registered resets the stored `member_count` to the
value carried by the re-submitted schema (`0`), while one distinct
offset has been registered. -/
theorem field_count_reset_counterexample :
    (runOps reregister_ops empty_reflect).isSome ∧
      (GetClassData_hash ((runOps reregister_ops empty_reflect).getD empty_reflect)
          9).member_count ≠
        (memberOffsets reregister_ops 9).toFinset.card := by decide

/-- C4 (amended): after every registration sequence in which each
`AddClass` call carries `member_count = 0` and precedes every
`AddMember` call for its class hash (as the registration macros
produce), the stored `member_count` of every registered class equals
the number of distinct byte offsets registered for it; and two
`AddMember` calls for the same class and the same offset leave exactly
one member schema at that offset — the second one — without changing
the member-map size. -/
theorem field_count_tracks_distinct_offsets :
    (∀ (ops : List RegOp) (r' : DrReflect),
        GoodSeq (fun _ => false) ops → runOps ops empty_reflect = some r' →
        ∀ (h : HashID) (c : ClassData), alFind h r'.classes = some c →
          c.member_count = (memberOffsets ops h).toFinset.card)
    ∧ (∀ (r : DrReflect) (cd : ClassData) (md1 md2 : MemberData) (r1 r2 : DrReflect),
        SortedMembers r → md1.offset = md2.offset →
        AddMember r cd md1 = some r1 → AddMember r1 cd md2 = some r2 →
        mapFind md1.offset ((alFind cd.hash_code r2.members).getD []) = some md2 ∧
        ((alFind cd.hash_code r2.members).getD []).length =
          ((alFind cd.hash_code r1.members).getD []).length) := by
  constructor
  · intro ops r' hg hrun h c hfind
    rcases goodSeq_count_invariant ops (fun _ => false) empty_reflect r' hg hrun
      (by intro h c hfc; simp [empty_reflect, alFind] at hfc)
      (by intro h _; rfl)
      (by intro h; simp [empty_reflect, alFind]) with ⟨hA, hB, hC⟩
    have hlen := hA h c hfind
    have hkeys := hB h
    simp only [empty_reflect, alFind, Option.getD_none, List.map_nil,
      List.toFinset_nil, Finset.empty_union] at hkeys
    have hnodup : (((alFind h r'.members).getD []).map Prod.fst).Nodup :=
      (List.pairwise_map.mpr (hC h)).imp (fun hlt => ne_of_lt hlt)
    calc c.member_count
        = ((alFind h r'.members).getD []).length := hlen
      _ = (((alFind h r'.members).getD []).map Prod.fst).length :=
          (List.length_map _ _).symm
      _ = (((alFind h r'.members).getD []).map Prod.fst).toFinset.card :=
          (List.toFinset_card_of_nodup hnodup).symm
      _ = (memberOffsets ops h).toFinset.card := by rw [hkeys]
  · intro r cd md1 md2 r1 r2 hsort heq hadd1 hadd2
    rcases AddMember_eq hadd1 with ⟨h0, c, hc, rfl⟩
    rcases AddMember_eq hadd2 with ⟨_, c', hc', hr2⟩
    subst hr2
    simp only [alFind_alInsert_self, Option.getD_some] at *
    set mm0 : MemberMap := (alFind cd.hash_code r.members).getD [] with hmm0
    have hsort1 : (mapInsert md1.offset md1 mm0).Pairwise (fun a b => a.1 < b.1) :=
      pairwise_mapInsert (hsort cd.hash_code)
    have hfound : mapFind md2.offset (mapInsert md1.offset md1 mm0) = some md1 := by
      rw [heq]
      exact mapFind_mapInsert_self _ _ _
    constructor
    · rw [heq]
      exact mapFind_mapInsert_self _ _ _
    · exact length_mapInsert_of_find_some hsort1 hfound

theorem field_count_tracks_distinct_offsets_witness :
    good_class.member_count = (memberOffsets good_ops 9).toFinset.card :=
  field_count_tracks_distinct_offsets.1 good_ops good_reflect
    (GoodSeq.cls _ _ _ rfl rfl
      (GoodSeq.mbr _ _ _ _ (GoodSeq.mbr _ _ _ _ (GoodSeq.nil _))))
    (by decide) 9 good_class (by decide)
